import Mathlib

/-!
# Verification of the semantic-memory core

Shallow embedding of the semantic-memory repository (PGlite record store,
decayed hybrid ranking engine, Ollama embedding client) and proofs about it.

The record-store operations (`store`, `get`, `delete`, `getStats`,
`search`) are translated from the PGlite database service
(`src/unnamed/part_001`).  The decayed ranking engine
(`searchDecayed`, `ftsSearchDecayed`) and the reinforcement operation
(`validate`) are exercised by the repository test suite and the CLI but
their implementation file is not part of the sources; they are modelled
from the specification and marked as such in their doc comments.

Scores are exact rationals where the source computes them directly; the
exponential decay factor lives in `ℝ` because of the real exponentiation
`0.5 ^ (ageDays / halfLifeDays)`.  The vector-distance and lexical-rank
primitives are supplied by the storage engine (external collaborators in
the specification) and are taken as parameters.
-/

namespace SemanticMemory

/-- Embedding dimension for mxbai-embed-large (`EMBEDDING_DIM` in the source). -/
def EMBEDDING_DIM : Nat := 1024

/-- Memory value handed to `store` (interface `Memory` in the source).
Metadata is the JSON value stored into the `JSONB` column, kept opaque. -/
structure Memory where
  id : String
  content : String
  metadata : String
  collection : String
  createdAt : ℚ
  deriving DecidableEq

/-- A row of the `memories` table.  `lastValidatedAt` is the decay-reset
column required by the test suite and the CLI (absent until `validate`). -/
structure MemRow where
  id : String
  content : String
  metadata : String
  collection : String
  createdAt : ℚ
  lastValidatedAt : Option ℚ
  deriving DecidableEq

/-- A row of the `memory_embeddings` table (`memory_id` primary key
referencing `memories(id)` with `ON DELETE CASCADE`). -/
structure EmbRow where
  memoryId : String
  embedding : List ℚ
  deriving DecidableEq

/-- The visible database state: the two tables. -/
structure DBState where
  memories : List MemRow
  embeddings : List EmbRow
  deriving DecidableEq

/-- `DatabaseError` carries a human-readable reason. -/
structure DatabaseError where
  reason : String
  deriving DecidableEq

/-- `MemoryNotFoundError` carries the missing id. -/
structure MemoryNotFoundError where
  id : String
  deriving DecidableEq

/-- `OllamaError` carries a human-readable reason. -/
structure OllamaError where
  reason : String
  deriving DecidableEq

/-- Match type tag on search results. -/
inductive MatchType where
  | vector
  | fts
  deriving DecidableEq

/-- Search options; the source defaults are `limit = 10`,
`threshold = 0.3`, no collection filter. -/
structure SearchOptions where
  limit : Nat
  threshold : ℚ
  collection : Option String
  deriving DecidableEq

/-- The source's default search options. -/
def defaultSearchOptions : SearchOptions :=
  ⟨10, 3/10, none⟩

/-- The empty database (freshly initialized schema). -/
def emptyDB : DBState := ⟨[], []⟩

/-- The dimension-mismatch message raised by the `vector(1024)` column. -/
def dimMismatchReason (n : Nat) : String :=
  "expected 1024 dimensions, not " ++ toString n

-- ===========================================================================
-- Record store operations (from the PGlite database service)
-- ===========================================================================

/-- Row written by a fresh `INSERT INTO memories`: `last_validated_at`
starts absent. -/
def freshRow (m : Memory) : MemRow :=
  ⟨m.id, m.content, m.metadata, m.collection, m.createdAt, none⟩

/-- Row produced by `ON CONFLICT (id) DO UPDATE SET content, metadata,
collection`: `created_at` and `last_validated_at` are not in the update
list and keep their stored values. -/
def overwriteRow (r : MemRow) (m : Memory) : MemRow :=
  ⟨r.id, m.content, m.metadata, m.collection, r.createdAt, r.lastValidatedAt⟩

/-- `INSERT ... ON CONFLICT (id) DO UPDATE` on the `memories` table:
update the row with the conflicting id if present, else append. -/
def upsertMemory (rows : List MemRow) (m : Memory) : List MemRow :=
  match rows with
  | [] => [freshRow m]
  | r :: rest =>
    if r.id = m.id then overwriteRow r m :: rest
    else r :: upsertMemory rest m

/-- `INSERT ... ON CONFLICT (memory_id) DO UPDATE SET embedding` on the
`memory_embeddings` table. -/
def upsertEmbedding (rows : List EmbRow) (id : String) (e : List ℚ) : List EmbRow :=
  match rows with
  | [] => [⟨id, e⟩]
  | r :: rest =>
    if r.memoryId = id then ⟨r.memoryId, e⟩ :: rest
    else r :: upsertEmbedding rest id e

/-- `store(memory, embedding)`: one transaction writing the memory row and
then the embedding row.  The `vector(1024)` column rejects an embedding
whose length differs from `EMBEDDING_DIM`, in which case the transaction
is rolled back and the caller's state is unchanged (the error carries the
dimension message). -/
def store (s : DBState) (m : Memory) (e : List ℚ) : Except DatabaseError DBState :=
  if e.length = EMBEDDING_DIM then
    .ok ⟨upsertMemory s.memories m, upsertEmbedding s.embeddings m.id e⟩
  else
    .error ⟨dimMismatchReason e.length⟩

/-- `get(id)`: `SELECT * FROM memories WHERE id = $1`, `null` when absent. -/
def get (s : DBState) (id : String) : Option MemRow :=
  s.memories.find? (fun r => r.id = id)

/-- `delete(id)`: `DELETE FROM memories WHERE id = $1`; the
`ON DELETE CASCADE` constraint removes the embedding row. -/
def deleteMem (s : DBState) (id : String) : DBState :=
  ⟨s.memories.filter (fun r => r.id ≠ id),
   s.embeddings.filter (fun r => r.memoryId ≠ id)⟩

/-- `getStats()`: the two `COUNT(*)` queries, as (memories, embeddings). -/
def getStats (s : DBState) : Nat × Nat :=
  (s.memories.length, s.embeddings.length)

/-- The embedding row found for an id, if any. -/
def findEmbedding (s : DBState) (id : String) : Option (List ℚ) :=
  (s.embeddings.find? (fun r => r.memoryId = id)).map (fun r => r.embedding)

/-- Does the optional collection filter accept this row?
(`WHERE m.collection = $n` when a collection is given.) -/
def collMatch (c : Option String) (r : MemRow) : Bool :=
  match c with
  | none => true
  | some name => r.collection = name

/-- The rows scanned by the similarity queries:
`FROM memory_embeddings e JOIN memories m ON m.id = e.memory_id`,
restricted by the optional collection filter. -/
def joinRows (s : DBState) (c : Option String) : List (MemRow × List ℚ) :=
  s.embeddings.filterMap (fun e =>
    match s.memories.find? (fun r => r.id = e.memoryId) with
    | some m => if collMatch c m then some (m, e.embedding) else none
    | none => none)

-- ===========================================================================
-- Sorting helper (models the SQL ORDER BY over the result rows)
-- ===========================================================================

/-- Insert an element in front of the first element it dominates. -/
def insertBy (ge : α → α → Bool) (x : α) : List α → List α
  | [] => [x]
  | y :: rest => if ge x y then x :: y :: rest else y :: insertBy ge x rest

/-- Insertion sort with a boolean comparator; models `ORDER BY ... DESC`
(any sorted permutation of the rows). -/
def sortRows (ge : α → α → Bool) : List α → List α
  | [] => []
  | x :: rest => insertBy ge x (sortRows ge rest)

theorem mem_insertBy (ge : α → α → Bool) (x a : α) (l : List α) :
    a ∈ insertBy ge x l ↔ a = x ∨ a ∈ l := by
  induction l with
  | nil => simp [insertBy]
  | cons y rest ih =>
    by_cases h : ge x y = true
    · simp [insertBy, h]
    · simp only [insertBy, if_neg h, List.mem_cons, ih]
      tauto

theorem mem_sortRows (ge : α → α → Bool) (a : α) (l : List α) :
    a ∈ sortRows ge l ↔ a ∈ l := by
  induction l with
  | nil => simp [sortRows]
  | cons x rest ih => simp [sortRows, mem_insertBy, ih]

theorem length_insertBy (ge : α → α → Bool) (x : α) (l : List α) :
    (insertBy ge x l).length = l.length + 1 := by
  induction l with
  | nil => simp [insertBy]
  | cons y rest ih =>
    by_cases h : ge x y = true
    · simp [insertBy, h]
    · simp [insertBy, h, ih]

theorem length_sortRows (ge : α → α → Bool) (l : List α) :
    (sortRows ge l).length = l.length := by
  induction l with
  | nil => rfl
  | cons x rest ih => simp [sortRows, length_insertBy, ih]

-- ===========================================================================
-- Similarity search as stored in the database service (raw scores)
-- ===========================================================================

/-- Result shape of the stored database service: memory, score, match type. -/
structure RawResult where
  memory : MemRow
  score : ℚ
  matchType : MatchType
  deriving DecidableEq

/-- Comparator for `ORDER BY e.embedding <=> $1::vector` (score descending,
since score = 1 − distance). -/
def rawGe (a b : RawResult) : Bool :=
  decide (b.score ≤ a.score)

/-- `search(queryEmbedding, options)` from the stored database service.
The SQL computes `1 - (e.embedding <=> $1::vector)` per scanned row; the
distance operator is the storage engine's primitive (parameter `dist`) and
raises a dimension error when the query vector length differs from the
`vector(1024)` column.  With no scanned rows the expression is never
evaluated and the query succeeds with an empty result; there is no
up-front validation of the query vector. -/
def search (dist : List ℚ → List ℚ → ℚ) (s : DBState) (q : List ℚ)
    (opts : SearchOptions) : Except DatabaseError (List RawResult) :=
  match joinRows s opts.collection with
  | [] => .ok []
  | r :: rest =>
    if q.length = EMBEDDING_DIM then
      let scored := (r :: rest).map
        (fun p => (⟨p.1, 1 - dist q p.2, .vector⟩ : RawResult))
      let kept := scored.filter (fun x => opts.threshold ≤ x.score)
      .ok ((sortRows rawGe kept).take opts.limit)
    else
      .error ⟨dimMismatchReason q.length⟩

-- ===========================================================================
-- Decayed hybrid ranking engine (modelled from the spec)
-- ===========================================================================

/-- Modelled from the spec: `referenceTime = lastValidatedAt ?? createdAt`. -/
def referenceTime (r : MemRow) : ℚ :=
  r.lastValidatedAt.getD r.createdAt

/-- Modelled from the spec: `ageDays = (now − referenceTime) / 86400s`,
clamped at 0 so clock skew cannot produce a decay factor above 1. -/
def ageDaysOf (now : ℚ) (r : MemRow) : ℚ :=
  max 0 ((now - referenceTime r) / 86400)

/-- The half-life default read by the CLI
(`MEMORY_DECAY_HALF_LIFE_DAYS ?? 90`). -/
def defaultHalfLifeDays : ℚ := 90

/-- Modelled from the spec: `decayFactor = 0.5 ^ (ageDays / halfLifeDays)`
(exponential half-life decay, as a real power). -/
noncomputable def decayFactorOf (halfLife ageDays : ℚ) : ℝ :=
  ((1 : ℝ) / 2) ^ ((ageDays / halfLife : ℚ) : ℝ)

/-- Result shape of the decayed ranking engine
`{memory, rawScore, ageDays, decayFactor, score, matchType}`. -/
structure DecayedResult where
  memory : MemRow
  rawScore : ℚ
  ageDays : ℚ
  decayFactor : ℝ
  score : ℝ
  matchType : MatchType

/-- Modelled from the spec: build one decayed result row
(`score = rawScore × decayFactor`). -/
noncomputable def mkDecayed (halfLife now : ℚ) (rawScore : ℚ) (r : MemRow)
    (t : MatchType) : DecayedResult :=
  let a := ageDaysOf now r
  let d := decayFactorOf halfLife a
  ⟨r, rawScore, a, d, (rawScore : ℝ) * d, t⟩

/-- Comparator for sorting by decayed score descending. -/
noncomputable def decayedGe (a b : DecayedResult) : Bool :=
  decide (b.score ≤ a.score)

/-- Modelled from the spec: the scored rows of the similarity search —
every embedding row (optionally restricted to a collection) with raw
similarity `sim` supplied by the storage engine's vector-distance
primitive. -/
noncomputable def scoredVector (sim : List ℚ → List ℚ → ℚ) (halfLife : ℚ)
    (s : DBState) (q : List ℚ) (c : Option String) (now : ℚ) :
    List DecayedResult :=
  (joinRows s c).map (fun p => mkDecayed halfLife now (sim q p.2) p.1 .vector)

/-- Modelled from the spec: the decayed similarity search (the database
service variant with decay columns that the tests and the CLI exercise;
its implementation file is not among the sources).  Steps: validate the
query dimension, score every row, keep rows with `rawScore ≥ threshold`,
sort by decayed score descending, return the top `limit`. -/
noncomputable def searchDecayed (sim : List ℚ → List ℚ → ℚ) (halfLife : ℚ)
    (s : DBState) (q : List ℚ) (opts : SearchOptions) (now : ℚ) :
    Except DatabaseError (List DecayedResult) :=
  if q.length = EMBEDDING_DIM then
    .ok ((sortRows decayedGe
      ((scoredVector sim halfLife s q opts.collection now).filter
        (fun x => opts.threshold ≤ x.rawScore))).take opts.limit)
  else
    .error ⟨dimMismatchReason q.length⟩

/-- Modelled from the spec: the scored rows of the lexical search — the
memories matched by the storage engine's full-text predicate, with the
lexical rank as raw score. -/
noncomputable def scoredFts (tsMatch : String → String → Bool)
    (tsRank : String → String → ℚ) (halfLife : ℚ) (s : DBState)
    (query : String) (c : Option String) (now : ℚ) : List DecayedResult :=
  (s.memories.filter (fun r => tsMatch query r.content && collMatch c r)).map
    (fun r => mkDecayed halfLife now (tsRank query r.content) r .fts)

/-- Modelled from the spec: the decayed lexical search — no threshold
filter, sort by decayed score descending, top `limit`. -/
noncomputable def ftsSearchDecayed (tsMatch : String → String → Bool)
    (tsRank : String → String → ℚ) (halfLife : ℚ) (s : DBState)
    (query : String) (opts : SearchOptions) (now : ℚ) : List DecayedResult :=
  (sortRows decayedGe (scoredFts tsMatch tsRank halfLife s query opts.collection now)).take
    opts.limit

-- ===========================================================================
-- Reinforcement operator (modelled from the spec)
-- ===========================================================================

/-- The validated row: only `lastValidatedAt` changes. -/
def setValidated (r : MemRow) (now : ℚ) : MemRow :=
  ⟨r.id, r.content, r.metadata, r.collection, r.createdAt, some now⟩

/-- Modelled from the spec: `validate(id)` sets `lastValidatedAt = now` on
the addressed memory and fails with `MemoryNotFoundError` when no memory
with that id exists (the implementation file with this operation is not
among the sources; the tests and the CLI call it). -/
def validate (s : DBState) (id : String) (now : ℚ) :
    Except MemoryNotFoundError DBState :=
  match get s id with
  | some _ =>
    .ok ⟨s.memories.map (fun r => if r.id = id then setValidated r now else r),
         s.embeddings⟩
  | none => .error ⟨id⟩

-- ===========================================================================
-- Ollama embedding client
-- ===========================================================================

/-- What the inference endpoint does on one attempt: the fetch throws, the
response has a non-success status with an error body, the body is not
valid JSON, or a good embedding comes back. -/
inductive FetchOutcome where
  | connFail (msg : String)
  | httpErr (body : String)
  | badJson
  | okResp (embedding : List ℚ)
  deriving DecidableEq

/-- One pass of `embedSingle`'s body: fetch, check status, parse JSON. -/
def attemptOnce : FetchOutcome → Except OllamaError (List ℚ)
  | .connFail msg => .error ⟨"Connection failed: " ++ msg⟩
  | .httpErr body => .error ⟨body⟩
  | .badJson => .error ⟨"Invalid JSON response"⟩
  | .okResp v => .ok v

/-- `Schedule.exponential(Duration.millis(100))` base delay. -/
def baseDelayMs : Nat := 100

/-- `Schedule.recurs(3)` bound composed onto the schedule: at most three
retries after the initial attempt. -/
def maxRetries : Nat := 3

/-- Observable outcome of one `embed` call: the result, the total number
of attempts made against the endpoint, and the backoff delays slept. -/
structure EmbedRun where
  result : Except OllamaError (List ℚ)
  attempts : Nat
  delays : List Nat

/-- The retry loop of `Effect.retry` with the composed schedule: attempt;
on any failure, while recurrences remain, sleep `100·2^n` ms and retry;
otherwise surface the error.  The schedule does not inspect the error, so
every failure is retried. -/
def embedGo (oracle : Nat → FetchOutcome) :
    Nat → Nat → Except OllamaError (List ℚ) × Nat × List Nat
  | retriesLeft, i =>
    match attemptOnce (oracle i), retriesLeft with
    | .ok v, _ => (.ok v, i + 1, [])
    | .error e, 0 => (.error e, i + 1, [])
    | .error _, r + 1 =>
      let d := baseDelayMs * 2 ^ i
      let rec_ := embedGo oracle r (i + 1)
      (rec_.1, rec_.2.1, d :: rec_.2.2)

/-- `embed(text)` driven by an oracle giving the endpoint's behaviour on
each attempt. -/
def embedSingle (oracle : Nat → FetchOutcome) : EmbedRun :=
  let r := embedGo oracle maxRetries 0
  ⟨r.1, r.2.1, r.2.2⟩

/-- Ordered fail-fast collection over the stream of texts: the result slot
for each text holds its own embedding, and the first failing text fails
the whole run. -/
def collectResults (oracle : String → Nat → FetchOutcome) :
    List String → Except OllamaError (List (List ℚ))
  | [] => .ok []
  | t :: ts =>
    match (embedSingle (oracle t)).result with
    | .error e => .error e
    | .ok v =>
      match collectResults oracle ts with
      | .error e => .error e
      | .ok vs => .ok (v :: vs)

/-- `embedBatch(texts, concurrency)`: `Stream.mapEffect(embedSingle,
{concurrency})` collects the embeddings in input order and fails the whole
batch on the first per-text failure; the concurrency bound only limits
in-flight requests and does not affect the collected result. -/
def embedBatch (oracle : String → Nat → FetchOutcome) (texts : List String)
    (concurrency : Nat) : Except OllamaError (List (List ℚ)) :=
  collectResults oracle texts

-- ===========================================================================
-- Operation sequences (for the 1:1 stats invariant)
-- ===========================================================================

/-- A record-store call in a history: a `store` or a `delete`. -/
inductive Op where
  | storeOp (m : Memory) (e : List ℚ)
  | deleteOp (id : String)

/-- Apply one call; a failed `store` is rolled back and leaves the state
unchanged. -/
def applyOp (s : DBState) : Op → DBState
  | .storeOp m e =>
    match store s m e with
    | .ok s1 => s1
    | .error _ => s
  | .deleteOp id => deleteMem s id

/-- Apply a history of calls starting from a state. -/
def applyOps (s : DBState) (ops : List Op) : DBState :=
  ops.foldl applyOp s

-- ===========================================================================
-- Helper lemmas
-- ===========================================================================

@[simp] theorem mkDecayed_memory (h n x : ℚ) (r : MemRow) (t : MatchType) :
    (mkDecayed h n x r t).memory = r := rfl

@[simp] theorem mkDecayed_rawScore (h n x : ℚ) (r : MemRow) (t : MatchType) :
    (mkDecayed h n x r t).rawScore = x := rfl

@[simp] theorem mkDecayed_ageDays (h n x : ℚ) (r : MemRow) (t : MatchType) :
    (mkDecayed h n x r t).ageDays = ageDaysOf n r := rfl

@[simp] theorem mkDecayed_decayFactor (h n x : ℚ) (r : MemRow) (t : MatchType) :
    (mkDecayed h n x r t).decayFactor = decayFactorOf h (ageDaysOf n r) := rfl

@[simp] theorem mkDecayed_score (h n x : ℚ) (r : MemRow) (t : MatchType) :
    (mkDecayed h n x r t).score = (x : ℝ) * decayFactorOf h (ageDaysOf n r) := rfl

theorem ageDaysOf_nonneg (now : ℚ) (r : MemRow) : 0 ≤ ageDaysOf now r :=
  le_max_left 0 _

theorem decayFactorOf_pos (halfLife a : ℚ) :
    0 < decayFactorOf halfLife a := by
  unfold decayFactorOf
  exact Real.rpow_pos_of_pos (by norm_num) _

theorem decayFactorOf_le_one (halfLife a : ℚ) (ha : 0 ≤ a)
    (hhl : 0 < halfLife) : decayFactorOf halfLife a ≤ 1 := by
  unfold decayFactorOf
  have hx : (0 : ℚ) ≤ a / halfLife := div_nonneg ha hhl.le
  have hx2 : (0 : ℝ) ≤ ((a / halfLife : ℚ) : ℝ) := by exact_mod_cast hx
  exact Real.rpow_le_one (by norm_num) (by norm_num) hx2

/-- The id multiset change an upsert makes, expressed on the id lists. -/
def upsertIds (l : List String) (x : String) : List String :=
  match l with
  | [] => [x]
  | y :: r => if y = x then y :: r else y :: upsertIds r x

theorem map_id_upsertMemory (rows : List MemRow) (m : Memory) :
    (upsertMemory rows m).map (fun r => r.id)
      = upsertIds (rows.map (fun r => r.id)) m.id := by
  induction rows with
  | nil => rfl
  | cons r rest ih =>
    by_cases h : r.id = m.id
    · simp [upsertMemory, upsertIds, h, overwriteRow]
    · simp [upsertMemory, upsertIds, h, ih]

theorem map_mid_upsertEmbedding (rows : List EmbRow) (id : String) (e : List ℚ) :
    (upsertEmbedding rows id e).map (fun r => r.memoryId)
      = upsertIds (rows.map (fun r => r.memoryId)) id := by
  induction rows with
  | nil => rfl
  | cons r rest ih =>
    by_cases h : r.memoryId = id
    · simp [upsertEmbedding, upsertIds, h]
    · simp [upsertEmbedding, upsertIds, h, ih]

theorem map_filter_comm {α β : Type} (f : α → β) (p : β → Bool) (l : List α) :
    (l.filter (fun r => p (f r))).map f = (l.map f).filter p := by
  induction l with
  | nil => rfl
  | cons a rest ih =>
    cases hpa : p (f a)
    · simp [List.filter_cons, hpa, ih]
    · simp [List.filter_cons, hpa, ih]

/-- The row found after a memory upsert: content, metadata and collection
come from the new value; `createdAt` is the stored one on conflict and the
new one on a fresh insert. -/
theorem find?_upsertMemory (rows : List MemRow) (m : Memory) :
    ∃ row, (upsertMemory rows m).find? (fun r => r.id = m.id) = some row ∧
      row.id = m.id ∧ row.content = m.content ∧ row.metadata = m.metadata ∧
      row.collection = m.collection ∧
      (rows.find? (fun r => r.id = m.id) = none → row.createdAt = m.createdAt) ∧
      (∀ old, rows.find? (fun r => r.id = m.id) = some old →
        row.createdAt = old.createdAt ∧
        row.lastValidatedAt = old.lastValidatedAt) := by
  induction rows with
  | nil =>
    refine ⟨freshRow m, ?_, rfl, rfl, rfl, rfl, fun _ => rfl, ?_⟩
    · simp [upsertMemory, freshRow]
    · intro old hold
      simp at hold
  | cons r rest ih =>
    by_cases h : r.id = m.id
    · refine ⟨overwriteRow r m, ?_, h, rfl, rfl, rfl, ?_, ?_⟩
      · simp [upsertMemory, h, overwriteRow, List.find?]
      · intro hnone
        rw [List.find?_cons_of_pos _ (by simpa using h)] at hnone
        cases hnone
      · intro old hold
        rw [List.find?_cons_of_pos _ (by simpa using h)] at hold
        injection hold with hold2
        rw [← hold2]
        exact ⟨rfl, rfl⟩
    · obtain ⟨row, hfind, hid, hc, hmd, hcol, hnone, hsome⟩ := ih
      refine ⟨row, ?_, hid, hc, hmd, hcol, ?_, ?_⟩
      · simp [upsertMemory, h, List.find?, hfind]
      · intro hn
        rw [List.find?_cons_of_neg _ (by simpa using h)] at hn
        exact hnone hn
      · intro old hold
        rw [List.find?_cons_of_neg _ (by simpa using h)] at hold
        exact hsome old hold

/-- The row found after an embedding upsert always carries the new vector. -/
theorem find?_upsertEmbedding (rows : List EmbRow) (id : String) (e : List ℚ) :
    ∃ row, (upsertEmbedding rows id e).find? (fun r => r.memoryId = id) = some row ∧
      row.memoryId = id ∧ row.embedding = e := by
  induction rows with
  | nil => exact ⟨⟨id, e⟩, by simp [upsertEmbedding], rfl, rfl⟩
  | cons r rest ih =>
    by_cases h : r.memoryId = id
    · exact ⟨⟨r.memoryId, e⟩, by simp [upsertEmbedding, h, List.find?], h, rfl⟩
    · obtain ⟨row, hfind, hid, he⟩ := ih
      exact ⟨row, by simp [upsertEmbedding, h, List.find?, hfind], hid, he⟩

/-- Nothing with the deleted id survives the delete filter. -/
theorem find?_filter_ne (l : List MemRow) (id : String) :
    (l.filter (fun r => r.id ≠ id)).find? (fun r => r.id = id) = none := by
  induction l with
  | nil => rfl
  | cons a rest ih =>
    by_cases h : a.id = id
    · simp [h, ih]
    · simp [h, ih, List.find?]

/-- Finding the validated id after the validate update. -/
theorem find?_validateMap (l : List MemRow) (id : String) (now : ℚ) :
    (l.map (fun r => if r.id = id then setValidated r now else r)).find?
        (fun r => r.id = id)
      = (l.find? (fun r => r.id = id)).map (fun r => setValidated r now) := by
  induction l with
  | nil => rfl
  | cons a rest ih =>
    by_cases h : a.id = id
    · simp [List.find?, h, setValidated]
    · simp [List.find?, h, ih]

/-- Rows with another id are untouched by the validate update. -/
theorem find?_validateMap_other (l : List MemRow) (id x : String) (hx : x ≠ id)
    (now : ℚ) :
    (l.map (fun r => if r.id = id then setValidated r now else r)).find?
        (fun r => r.id = x)
      = l.find? (fun r => r.id = x) := by
  induction l with
  | nil => rfl
  | cons a rest ih =>
    have hix : ¬ (id = x) := fun hh => hx hh.symm
    by_cases h : a.id = id
    · have hax : ¬ (a.id = x) := by rw [h]; exact hix
      rw [List.map_cons, if_pos h, List.find?_cons_of_neg, List.find?_cons_of_neg _ (by simpa using hax)]
      · exact ih
      · simpa [setValidated] using hax
    · rw [List.map_cons, if_neg h]
      by_cases h2 : a.id = x
      · rw [List.find?_cons_of_pos _ (by simpa using h2),
            List.find?_cons_of_pos _ (by simpa using h2)]
      · rw [List.find?_cons_of_neg _ (by simpa using h2),
            List.find?_cons_of_neg _ (by simpa using h2)]
        exact ih

/-- The memory-row ids and embedding-row ids stay aligned. -/
def idsAligned (s : DBState) : Prop :=
  s.memories.map (fun r => r.id) = s.embeddings.map (fun r => r.memoryId)

theorem idsAligned_applyOp (s : DBState) (op : Op) (h : idsAligned s) :
    idsAligned (applyOp s op) := by
  cases op with
  | storeOp m e =>
    by_cases hd : e.length = EMBEDDING_DIM
    · simp only [applyOp, store, if_pos hd]
      unfold idsAligned at h ⊢
      simp only [map_id_upsertMemory, map_mid_upsertEmbedding, h]
    · simpa only [applyOp, store, if_neg hd] using h
  | deleteOp id =>
    unfold idsAligned at h ⊢
    show ((s.memories.filter (fun r => r.id ≠ id)).map (fun r => r.id))
      = ((s.embeddings.filter (fun r => r.memoryId ≠ id)).map (fun r => r.memoryId))
    rw [map_filter_comm (fun r : MemRow => r.id) (fun y => y ≠ id) s.memories,
        map_filter_comm (fun r : EmbRow => r.memoryId) (fun y => y ≠ id) s.embeddings,
        h]

theorem idsAligned_applyOps (ops : List Op) (s : DBState) (h : idsAligned s) :
    idsAligned (applyOps s ops) := by
  induction ops generalizing s with
  | nil => exact h
  | cons op rest ih => exact ih (applyOp s op) (idsAligned_applyOp s op h)

/-- The per-result guarantees of the decayed ranking engine:
`score = rawScore × decayFactor`, the clamped age from the reference time,
the half-life decay formula, and the (0, 1] bounds on the decay factor. -/
def DecayOk (halfLife now : ℚ) (r : DecayedResult) : Prop :=
  r.score = (r.rawScore : ℝ) * r.decayFactor ∧
  r.ageDays = max 0 ((now - (r.memory.lastValidatedAt.getD r.memory.createdAt)) / 86400) ∧
  r.decayFactor = ((1 : ℝ) / 2) ^ ((r.ageDays / halfLife : ℚ) : ℝ) ∧
  0 < r.decayFactor ∧ r.decayFactor ≤ 1

theorem decayOk_mkDecayed (halfLife now x : ℚ) (r : MemRow) (t : MatchType)
    (hhl : 0 < halfLife) : DecayOk halfLife now (mkDecayed halfLife now x r t) := by
  refine ⟨rfl, rfl, rfl, decayFactorOf_pos _ _, ?_⟩
  simpa using decayFactorOf_le_one halfLife (ageDaysOf now r)
    (ageDaysOf_nonneg now r) hhl

/-- A successful store commits exactly the two upserted tables. -/
theorem store_ok_state (s : DBState) (m : Memory) (e : List ℚ) (s1 : DBState)
    (h : store s m e = .ok s1) :
    s1.memories = upsertMemory s.memories m ∧
    s1.embeddings = upsertEmbedding s.embeddings m.id e := by
  unfold store at h
  by_cases hd : e.length = EMBEDDING_DIM
  · rw [if_pos hd] at h
    injection h with h2
    rw [← h2]
    exact ⟨rfl, rfl⟩
  · rw [if_neg hd] at h
    cases h

-- ===========================================================================
-- Claim theorems
-- ===========================================================================

/-- C4: after any sequence of store and delete calls starting from the
empty store, getStats returns equal memory and embedding counts: a
successful store writes one memory row and one embedding row under the
same id in one transaction, a failed store is rolled back whole, and
deleting a memory cascades to its embedding row. -/
theorem stats_counts_equal (ops : List Op) :
    (getStats (applyOps emptyDB ops)).1 = (getStats (applyOps emptyDB ops)).2 := by
  have h := idsAligned_applyOps ops emptyDB rfl
  unfold idsAligned at h
  have h2 := congrArg List.length h
  simpa [getStats] using h2

/-- C2 (amended): a store with a wrong-length embedding always fails with
the dimension-mismatch error, and the transaction is all-or-nothing (a
successful store leaves both the memory row and the embedding row visible;
a failed one commits nothing).  A search with a wrong-length query vector
fails with the dimension-mismatch error whenever at least one embedding
row is scanned, but succeeds with the empty result when the scanned row
set is empty, because the row-wise vector comparison is never evaluated. -/
theorem dimension_mismatch_contract (dist : List ℚ → List ℚ → ℚ) (s : DBState)
    (m : Memory) (e q : List ℚ) (opts : SearchOptions) :
    (e.length ≠ EMBEDDING_DIM → store s m e = .error ⟨dimMismatchReason e.length⟩) ∧
    (∀ s1, store s m e = .ok s1 →
      (get s1 m.id).isSome = true ∧ (findEmbedding s1 m.id).isSome = true) ∧
    (∀ p ps, joinRows s opts.collection = p :: ps → q.length ≠ EMBEDDING_DIM →
      search dist s q opts = .error ⟨dimMismatchReason q.length⟩) ∧
    (joinRows s opts.collection = [] → search dist s q opts = .ok []) := by
  refine ⟨?_, ?_, ?_, ?_⟩
  · intro hne
    unfold store
    rw [if_neg hne]
  · intro s1 hok
    obtain ⟨hm, he⟩ := store_ok_state s m e s1 hok
    constructor
    · obtain ⟨row, hfind, -⟩ := find?_upsertMemory s.memories m
      unfold get
      rw [hm, hfind]
      rfl
    · obtain ⟨row, hfind, -, -⟩ := find?_upsertEmbedding s.embeddings m.id e
      unfold findEmbedding
      rw [he, hfind]
      rfl
  · intro p ps hjoin hne
    simp only [search, hjoin]
    rw [if_neg hne]
  · intro hjoin
    simp only [search, hjoin]

/-- C2 counterexample: on an empty store, a similarity search with a
3-dimensional query embedding succeeds with the empty result instead of
failing with a dimension-mismatch error. -/
theorem search_wrong_dim_succeeds_on_empty_store :
    (([1, 2, 3] : List ℚ).length ≠ EMBEDDING_DIM) ∧
    search (fun _ _ => 0) emptyDB [1, 2, 3] defaultSearchOptions = .ok [] :=
  ⟨by decide, rfl⟩

def c2Mem : Memory := ⟨"m1", "hello", "{}", "default", 0⟩

/-- Witness: a store of a 3-dimensional embedding fails with the
dimension-mismatch error. -/
theorem dimension_mismatch_contract_witness :
    (([1, 2, 3] : List ℚ).length ≠ EMBEDDING_DIM) ∧
    store emptyDB c2Mem [1, 2, 3] = .error ⟨dimMismatchReason 3⟩ := by
  refine ⟨by decide, ?_⟩
  exact (dimension_mismatch_contract (fun _ _ => 0) emptyDB c2Mem [1, 2, 3]
    [1, 2, 3] defaultSearchOptions).1 (by decide)

/-- C8: storing an existing id overwrites content, metadata, collection and
embedding but keeps the original createdAt: after storing the same fresh id
twice, get returns the first store's createdAt together with the second
store's other fields, and the stored embedding is the second one. -/
theorem upsert_preserves_createdAt (s : DBState) (m1 m2 : Memory)
    (e1 e2 : List ℚ) (s1 s2 : DBState) (hfresh : get s m1.id = none)
    (h1 : store s m1 e1 = .ok s1) (hid : m2.id = m1.id)
    (h2 : store s1 m2 e2 = .ok s2) :
    (get s2 m1.id).map (fun r => r.createdAt) = some m1.createdAt ∧
    (get s2 m1.id).map (fun r => r.content) = some m2.content ∧
    (get s2 m1.id).map (fun r => r.metadata) = some m2.metadata ∧
    (get s2 m1.id).map (fun r => r.collection) = some m2.collection ∧
    findEmbedding s2 m1.id = some e2 := by
  obtain ⟨hm1, he1⟩ := store_ok_state s m1 e1 s1 h1
  obtain ⟨hm2, he2⟩ := store_ok_state s1 m2 e2 s2 h2
  obtain ⟨row1, hfind1, hid1, hc1, hmd1, hcol1, hcr1none, -⟩ :=
    find?_upsertMemory s.memories m1
  obtain ⟨row2, hfind2, hid2, hc2, hmd2, hcol2, -, hcr2some⟩ :=
    find?_upsertMemory s1.memories m2
  have hfresh2 : s.memories.find? (fun r => r.id = m1.id) = none := hfresh
  have hrow1cr : row1.createdAt = m1.createdAt := hcr1none hfresh2
  have hscrut : s1.memories.find? (fun r => r.id = m2.id) = some row1 := by
    rw [hm1, hid]
    exact hfind1
  have hrow2cr : row2.createdAt = row1.createdAt := (hcr2some row1 hscrut).1
  have hget2 : get s2 m1.id = some row2 := by
    unfold get
    rw [hm2, ← hid]
    exact hfind2
  refine ⟨?_, ?_, ?_, ?_, ?_⟩
  · rw [hget2]
    simp [hrow2cr, hrow1cr]
  · rw [hget2]
    simp [hc2]
  · rw [hget2]
    simp [hmd2]
  · rw [hget2]
    simp [hcol2]
  · obtain ⟨erow, hefind, -, hee⟩ := find?_upsertEmbedding s1.embeddings m2.id e2
    unfold findEmbedding
    rw [he2, ← hid, hefind]
    simp [hee]

def c8M1 : Memory := ⟨"m", "a", "x", "c1", 5⟩

def c8M2 : Memory := ⟨"m", "b", "y", "c2", 7⟩

def c8E1 : List ℚ := List.replicate EMBEDDING_DIM 0

def c8E2 : List ℚ := List.replicate EMBEDDING_DIM 1

def c8S1 : DBState := ⟨[freshRow c8M1], [⟨"m", c8E1⟩]⟩

def c8S2 : DBState := ⟨[overwriteRow (freshRow c8M1) c8M2], [⟨"m", c8E2⟩]⟩

set_option maxRecDepth 8000 in
/-- Witness: two stores of the id "m" with createdAt 5 then 7; get returns
createdAt 5 with the second content. -/
theorem upsert_preserves_createdAt_witness :
    (get c8S2 "m").map (fun r => r.createdAt) = some 5 ∧
    (get c8S2 "m").map (fun r => r.content) = some "b" := by
  have h := upsert_preserves_createdAt emptyDB c8M1 c8M2 c8E1 c8E2 c8S1 c8S2
    rfl rfl rfl rfl
  exact ⟨h.1, h.2.1⟩

def c9Mem : Memory := ⟨"m1", "", "{}", "default", 0⟩

def c9Emb : List ℚ := List.replicate EMBEDDING_DIM 0

def c9S1 : DBState := ⟨[freshRow c9Mem], [⟨"m1", c9Emb⟩]⟩

set_option maxRecDepth 8000 in
/-- C9 counterexample: a store call with an empty content string succeeds
(content is only constrained NOT NULL) and the memory is visible via get
with empty content. -/
theorem empty_content_store_succeeds :
    store emptyDB c9Mem c9Emb = .ok c9S1 ∧
    (get c9S1 "m1").map (fun r => r.content) = some "" :=
  ⟨rfl, rfl⟩

/-- The CLI store command's `if (!content)` guard: an empty (or missing)
content argument is rejected before the database is touched. -/
def cliContentOk (c : String) : Bool := !(c == "")

/-- C9 (amended): the record store itself does not validate content — a
store call with empty content and a well-formed embedding succeeds and the
memory is visible via get with empty content; only the CLI rejects an
empty content argument. -/
theorem empty_content_contract (s : DBState) (m : Memory) (e : List ℚ)
    (hc : m.content = "") (he : e.length = EMBEDDING_DIM) :
    (∃ s1, store s m e = .ok s1 ∧
      (get s1 m.id).map (fun r => r.content) = some "") ∧
    cliContentOk "" = false := by
  refine ⟨?_, rfl⟩
  refine ⟨⟨upsertMemory s.memories m, upsertEmbedding s.embeddings m.id e⟩, ?_, ?_⟩
  · unfold store
    rw [if_pos he]
  · obtain ⟨row, hfind, -, hcont, -⟩ := find?_upsertMemory s.memories m
    show ((upsertMemory s.memories m).find? (fun r => r.id = m.id)).map
      (fun r => r.content) = some ""
    rw [hfind]
    simp [hcont, hc]

/-- Witness for the empty-content contract at concrete inputs. -/
theorem empty_content_contract_witness :
    c9Mem.content = "" ∧ c9Emb.length = EMBEDDING_DIM ∧
    (∃ s1, store emptyDB c9Mem c9Emb = .ok s1 ∧
      (get s1 c9Mem.id).map (fun r => r.content) = some "") := by
  refine ⟨rfl, by simp [c9Emb], ?_⟩
  exact (empty_content_contract emptyDB c9Mem c9Emb rfl (by simp [c9Emb])).1

/-- C10: store/get round-trip — a successful store makes get return a
memory with the stored id, content, metadata and collection, and get is
null after a delete of the looked-up id and on the empty store. -/
theorem store_get_roundtrip (s : DBState) (m : Memory) (e : List ℚ)
    (s1 : DBState) (h : store s m e = .ok s1) :
    (∃ row, get s1 m.id = some row ∧ row.id = m.id ∧ row.content = m.content ∧
      row.metadata = m.metadata ∧ row.collection = m.collection) ∧
    (∀ x, get (deleteMem s1 x) x = none) ∧
    (∀ x, get emptyDB x = none) := by
  obtain ⟨hm, he⟩ := store_ok_state s m e s1 h
  refine ⟨?_, ?_, fun x => rfl⟩
  · obtain ⟨row, hfind, hid, hc, hmd, hcol, -, -⟩ := find?_upsertMemory s.memories m
    refine ⟨row, ?_, hid, hc, hmd, hcol⟩
    unfold get
    rw [hm]
    exact hfind
  · intro x
    show (s1.memories.filter (fun r => r.id ≠ x)).find? (fun r => r.id = x) = none
    exact find?_filter_ne s1.memories x

set_option maxRecDepth 8000 in
/-- Witness: round-trip of the concrete memory "m" through store and get. -/
theorem store_get_roundtrip_witness :
    ∃ row, get c8S1 "m" = some row ∧ row.id = "m" ∧ row.content = "a" ∧
      row.metadata = "x" ∧ row.collection = "c1" := by
  have h := store_get_roundtrip emptyDB c8M1 c8E1 c8S1 rfl
  exact h.1

/-- C3: validate sets lastValidatedAt to the given current time on the
addressed memory, touches no other field, no other memory and no
embedding row, and fails with MemoryNotFoundError when the id is absent. -/
theorem validate_contract (s : DBState) (id : String) (now : ℚ) :
    (get s id = none → validate s id now = .error ⟨id⟩) ∧
    (∀ row, get s id = some row →
      ∃ s1, validate s id now = .ok s1 ∧
        (∃ row2, get s1 id = some row2 ∧ row2.id = row.id ∧
          row2.content = row.content ∧ row2.metadata = row.metadata ∧
          row2.collection = row.collection ∧ row2.createdAt = row.createdAt ∧
          row2.lastValidatedAt = some now) ∧
        (∀ x, x ≠ id → get s1 x = get s x) ∧
        s1.embeddings = s.embeddings) := by
  constructor
  · intro hnone
    simp only [validate, hnone]
  · intro row hsome
    refine ⟨⟨s.memories.map (fun r => if r.id = id then setValidated r now else r),
      s.embeddings⟩, ?_, ?_, ?_, rfl⟩
    · simp only [validate, hsome]
    · refine ⟨setValidated row now, ?_, rfl, rfl, rfl, rfl, rfl, rfl⟩
      show (s.memories.map (fun r => if r.id = id then setValidated r now else r)).find?
        (fun r => r.id = id) = some (setValidated row now)
      rw [find?_validateMap]
      have hsome2 : s.memories.find? (fun r => r.id = id) = some row := hsome
      rw [hsome2]
      rfl
    · intro x hxid
      show (s.memories.map (fun r => if r.id = id then setValidated r now else r)).find?
        (fun r => r.id = x) = get s x
      exact find?_validateMap_other s.memories id x hxid now

def c3Row : MemRow := ⟨"m", "txt", "{}", "default", 0, none⟩

def c3S : DBState := ⟨[c3Row], []⟩

/-- Witness: validating the present id "m" succeeds and leaves the
embeddings table untouched. -/
theorem validate_contract_witness :
    get c3S "m" = some c3Row ∧
    ∃ s1, validate c3S "m" 42 = .ok s1 ∧ s1.embeddings = c3S.embeddings := by
  refine ⟨rfl, ?_⟩
  obtain ⟨s1, hok, -, -, hemb⟩ := (validate_contract c3S "m" 42).2 c3Row rfl
  exact ⟨s1, hok, hemb⟩

/-- C5: at the failing input where the endpoint returns a malformed
(non-JSON) body on every attempt, the retry loop makes four total attempts
with backoff delays 100, 200, 400 ms before surfacing the error: the
schedule never inspects the error, so the permanent malformed-response
failure is retried, and the composed `recurs(3)` schedule allows three
retries after the initial attempt — four total attempts, not three. -/
theorem malformed_response_retried_four_attempts :
    embedSingle (fun _ => .badJson)
      = ⟨.error ⟨"Invalid JSON response"⟩, 4, [100, 200, 400]⟩ ∧
    3 < (embedSingle (fun _ => .badJson)).attempts :=
  ⟨rfl, by decide⟩

/-- C6: a successful embedBatch returns one embedding per input text, in
input order (the i-th output is the embedding of the i-th text), for every
concurrency bound; and any unrecoverable per-text failure fails the whole
batch with no partial result. -/
theorem embedBatch_order_failfast (oracle : String → Nat → FetchOutcome)
    (texts : List String) (concurrency : Nat) :
    (∀ out, embedBatch oracle texts concurrency = .ok out →
      out.length = texts.length ∧
      ∀ i (hi : i < texts.length) (ho : i < out.length),
        (embedSingle (oracle (texts.get ⟨i, hi⟩))).result
          = .ok (out.get ⟨i, ho⟩)) ∧
    (∀ t ∈ texts, ∀ err, (embedSingle (oracle t)).result = .error err →
      ∃ err2, embedBatch oracle texts concurrency = .error err2) := by
  unfold embedBatch
  induction texts with
  | nil =>
    constructor
    · intro out hout
      injection hout with h
      rw [← h]
      exact ⟨rfl, fun i hi => absurd hi (Nat.not_lt_zero i)⟩
    · intro t ht
      cases ht
  | cons t ts ih =>
    constructor
    · intro out hout
      unfold collectResults at hout
      cases he : (embedSingle (oracle t)).result with
      | error e =>
        rw [he] at hout
        cases hout
      | ok v =>
        rw [he] at hout
        cases hrest : collectResults oracle ts with
        | error e2 =>
          rw [hrest] at hout
          cases hout
        | ok vs =>
          rw [hrest] at hout
          injection hout with h
          rw [← h]
          obtain ⟨hlen, hidx⟩ := ih.1 vs hrest
          refine ⟨by simpa using hlen, ?_⟩
          intro i hi ho
          match i with
          | 0 => exact he
          | Nat.succ j =>
            have hj : j < ts.length := by simpa using hi
            have hj2 : j < vs.length := by
              rw [hlen]
              exact hj
            exact hidx j hj hj2
    · intro t2 ht2 err herr
      unfold collectResults
      cases he : (embedSingle (oracle t)).result with
      | error e => exact ⟨e, rfl⟩
      | ok v =>
        cases hrest : collectResults oracle ts with
        | error e2 => exact ⟨e2, rfl⟩
        | ok vs =>
          rcases List.mem_cons.mp ht2 with h2 | h2
          · rw [h2] at herr
            rw [herr] at he
            cases he
          · obtain ⟨err2, heq⟩ := ih.2 t2 h2 err herr
            rw [heq] at hrest
            cases hrest

/-- Witness: a three-text batch returns three embeddings in input order. -/
theorem embedBatch_order_failfast_witness :
    embedBatch (fun _ _ => .okResp [1]) ["a", "b", "c"] 2 = .ok [[1], [1], [1]] ∧
    ([[1], [1], [1]] : List (List ℚ)).length
      = (["a", "b", "c"] : List String).length := by
  refine ⟨rfl, ?_⟩
  exact ((embedBatch_order_failfast (fun _ _ => .okResp [1]) ["a", "b", "c"] 2).1
    [[1], [1], [1]] rfl).1

/-- C1: every result returned by the decayed similarity search or the
decayed lexical search satisfies `score = rawScore × decayFactor`, with
`decayFactor = 0.5 ^ (ageDays / halfLifeDays)` for the configurable
half-life (CLI default 90 days), where `ageDays` is the elapsed time in
days since the reference time (`lastValidatedAt` if set, else `createdAt`)
clamped at 0, so the decay factor is never negative and never exceeds 1. -/
theorem decayed_score_formula (sim : List ℚ → List ℚ → ℚ)
    (tsM : String → String → Bool) (tsR : String → String → ℚ)
    (halfLife : ℚ) (hhl : 0 < halfLife) (s : DBState) (q : List ℚ)
    (query : String) (opts : SearchOptions) (now : ℚ)
    (rs : List DecayedResult) :
    defaultHalfLifeDays = 90 ∧
    (searchDecayed sim halfLife s q opts now = .ok rs →
      ∀ r ∈ rs, DecayOk halfLife now r) ∧
    (∀ r ∈ ftsSearchDecayed tsM tsR halfLife s query opts now,
      DecayOk halfLife now r) := by
  refine ⟨rfl, ?_, ?_⟩
  · intro hok r hr
    unfold searchDecayed at hok
    by_cases hd : q.length = EMBEDDING_DIM
    · rw [if_pos hd] at hok
      injection hok with h
      rw [← h] at hr
      have hr2 := (mem_sortRows decayedGe r _).mp (List.take_subset _ _ hr)
      have hr3 := (List.mem_filter.mp hr2).1
      unfold scoredVector at hr3
      obtain ⟨p, -, heq⟩ := List.mem_map.mp hr3
      rw [← heq]
      exact decayOk_mkDecayed halfLife now _ _ _ hhl
    · rw [if_neg hd] at hok
      cases hok
  · intro r hr
    unfold ftsSearchDecayed at hr
    have hr2 := (mem_sortRows decayedGe r _).mp (List.take_subset _ _ hr)
    unfold scoredFts at hr2
    obtain ⟨p, -, heq⟩ := List.mem_map.mp hr2
    rw [← heq]
    exact decayOk_mkDecayed halfLife now _ _ _ hhl

def c1Row : MemRow := ⟨"m1", "hello", "{}", "default", 0, none⟩

def c1Vec : List ℚ := List.replicate EMBEDDING_DIM 0

def c1S : DBState := ⟨[c1Row], [⟨"m1", c1Vec⟩]⟩

def c1Sim : List ℚ → List ℚ → ℚ := fun _ _ => 1

def c1Opts : SearchOptions := ⟨10, 0, none⟩

noncomputable def c1Res : DecayedResult := mkDecayed 90 0 1 c1Row .vector

set_option maxRecDepth 8000 in
theorem c1_search_eval :
    searchDecayed c1Sim 90 c1S c1Vec c1Opts 0 = .ok [c1Res] := rfl

/-- Witness: the single result of a concrete decayed search satisfies all
decay guarantees. -/
theorem decayed_score_formula_witness :
    (0 : ℚ) < 90 ∧
    ∃ rs, searchDecayed c1Sim 90 c1S c1Vec c1Opts 0 = .ok rs ∧
      ∀ r ∈ rs, DecayOk 90 0 r := by
  refine ⟨by norm_num, [c1Res], c1_search_eval, ?_⟩
  exact (decayed_score_formula c1Sim (fun _ _ => true) (fun _ _ => 0) 90
    (by norm_num) c1S c1Vec "" c1Opts 0 [c1Res]).2.1 c1_search_eval

/-- C7: in the decayed similarity search the threshold filter applies to
the raw, undecayed similarity: every returned result has
`rawScore ≥ threshold`, and every scored row passing that raw-score test
is returned (when the passing rows fit within the limit), regardless of
its decayed score. -/
theorem threshold_on_raw_score (sim : List ℚ → List ℚ → ℚ) (halfLife : ℚ)
    (s : DBState) (q : List ℚ) (opts : SearchOptions) (now : ℚ)
    (rs : List DecayedResult)
    (hok : searchDecayed sim halfLife s q opts now = .ok rs) :
    (∀ r ∈ rs, opts.threshold ≤ r.rawScore) ∧
    (((scoredVector sim halfLife s q opts.collection now).filter
        (fun x => opts.threshold ≤ x.rawScore)).length ≤ opts.limit →
      ∀ r ∈ (scoredVector sim halfLife s q opts.collection now).filter
        (fun x => opts.threshold ≤ x.rawScore), r ∈ rs) := by
  unfold searchDecayed at hok
  by_cases hd : q.length = EMBEDDING_DIM
  · rw [if_pos hd] at hok
    injection hok with h
    constructor
    · intro r hr
      rw [← h] at hr
      have hr2 := (mem_sortRows decayedGe r _).mp (List.take_subset _ _ hr)
      have hp := (List.mem_filter.mp hr2).2
      exact of_decide_eq_true hp
    · intro hlen r hr
      rw [← h]
      have hlen2 : (sortRows decayedGe
          ((scoredVector sim halfLife s q opts.collection now).filter
            (fun x => opts.threshold ≤ x.rawScore))).length ≤ opts.limit := by
        rw [length_sortRows]
        exact hlen
      rw [List.take_of_length_le hlen2]
      exact (mem_sortRows decayedGe r _).mpr hr
  · rw [if_neg hd] at hok
    cases hok

def c7Row : MemRow := ⟨"m1", "old note", "{}", "default", 0, none⟩

def c7S : DBState := ⟨[c7Row], [⟨"m1", c1Vec⟩]⟩

def c7Sim : List ℚ → List ℚ → ℚ := fun _ _ => mkRat 19 20

def c7Opts : SearchOptions := ⟨10, mkRat 9 10, none⟩

noncomputable def c7Res : DecayedResult :=
  mkDecayed 90 8640000 (mkRat 19 20) c7Row .vector

set_option maxRecDepth 8000 in
theorem c7_search_eval :
    searchDecayed c7Sim 90 c7S c1Vec c7Opts 8640000 = .ok [c7Res] := rfl

/-- Witness: a 100-day-old memory with raw similarity 0.95 (decay factor
well below the 0.9 threshold) is still returned under threshold 0.9. -/
theorem threshold_on_raw_score_witness :
    ∃ rs, searchDecayed c7Sim 90 c7S c1Vec c7Opts 8640000 = .ok rs ∧
      ∀ r ∈ rs, mkRat 9 10 ≤ r.rawScore := by
  refine ⟨[c7Res], c7_search_eval, ?_⟩
  exact (threshold_on_raw_score c7Sim 90 c7S c1Vec c7Opts 8640000 [c7Res]
    c7_search_eval).1

end SemanticMemory
